import Mathlib

/-!
Verification of the href-checker link validation pipeline (src/index.ts)
against its natural-language specification.

The development shallowly embeds the core of the program:

- the bounded-concurrency scheduler pmap (src/index.ts lines 199-228) as a
  small-step transition system over lane states, parameterised by the
  nondeterministic completion order of the in-flight fn invocations;
- the occurrence counter count (lines 190-197) as an insertion-ordered
  association list mirroring JavaScript Map semantics;
- the per-link validators isFragmentValid (lines 145-153) and isLinkValid
  (lines 155-188) as pure functions over an environment describing the
  external rendering engine (navigation results, DOM query answers, body
  markup);
- the orchestrating generator checkLinks (lines 48-88) as a trace of
  resource events (launch, navigate, yield, close, raise), with consumer
  early termination modelled as the generator return that JavaScript
  for-await break performs.
-/

namespace HrefChecker

/-! ## Scheduler model (pmap, src/index.ts lines 199-228)

The JavaScript source keeps a shared cursor object `state.value`, creates
`min(concurrency, inputs.length)` lanes up front (the initial for loop uses
the cursor itself as the loop counter, so lane k synchronously captures
`inputs[k]` and starts `fn` on it), and on each lane completion resolves the
pair, increments the cursor, and, if the incremented cursor is still below
`inputs.length`, synchronously spawns a new lane that captures the input at
the freshly incremented cursor and appends its promise to the `promises`
array.  The generator then yields the promises in array order, and promises
appended during iteration are reached because a JavaScript array iterator
rechecks the length on every step, and the push always happens in the
microtask that resolves the awaited promise, before the consumer resumes.

The state records the cursor, the indices of lanes whose fn invocation has
started but not resolved (`active`), and the promises array as the list of
lane input indices in registration order (`order`).  A schedule lists which
active lane resolves at each completion event; steps naming a non-active
lane leave the state unchanged, so the theorems quantify over arbitrary
schedules. -/

structure PmapState where
  cursor : Nat
  active : List Nat
  order : List Nat
deriving Repr, DecidableEq

/-- State after the synchronous initial loop of pmap: with
c = min concurrency inputs.length, lanes 0..c-1 have started fn and the
cursor has been advanced to c by the loop counter. -/
def pmapInit (n limit : Nat) : PmapState :=
  { cursor := min limit n
    active := List.range (min limit n)
    order := List.range (min limit n) }

/-- One completion event: the fn invocation of lane i resolves.  Following
the source, the shared cursor is incremented after the resolve, and a new
lane is spawned for the input at the incremented cursor when that index is
still in range. -/
def pmapStep (n : Nat) (s : PmapState) (i : Nat) : PmapState :=
  if i ∈ s.active then
    if s.cursor + 1 < n then
      { cursor := s.cursor + 1
        active := s.active.erase i ++ [s.cursor + 1]
        order := s.order ++ [s.cursor + 1] }
    else
      { cursor := s.cursor + 1
        active := s.active.erase i
        order := s.order }
  else s

/-- Scheduler state after the completion events listed in sched. -/
def pmapRun (n limit : Nat) (sched : List Nat) : PmapState :=
  sched.foldl (pmapStep n) (pmapInit n limit)

/-- The result pairs the generator delivers once every registered promise
has resolved: the promises array in registration order, each lane i paired
as (inputs[i], fn inputs[i]) because lane i captured inputs[i] at creation
and resolved with fn applied to that input. -/
def pmapEmit {α β : Type} (inputs : List α) (fn : α → β) (s : PmapState) : List (α × β) :=
  s.order.filterMap (fun i => (inputs.get? i).map (fun a => (a, fn a)))

theorem pmapStep_active_le (n c : Nat) (s : PmapState) (i : Nat)
    (h : s.active.length ≤ c) : (pmapStep n s i).active.length ≤ c := by
  unfold pmapStep
  by_cases hm : i ∈ s.active
  · have hlen : (s.active.erase i).length = s.active.length - 1 :=
      List.length_erase_of_mem hm
    have hpos : 0 < s.active.length := List.length_pos_of_mem hm
    by_cases hc : s.cursor + 1 < n
    · simp only [hm, if_true, hc, List.length_append, hlen, List.length_singleton]
      omega
    · simp only [hm, if_true, hc, if_false, hlen]
      omega
  · simp [hm, h]

theorem pmapRun_aux_active_le (n c : Nat) :
    ∀ (sched : List Nat) (s : PmapState), s.active.length ≤ c →
      (sched.foldl (pmapStep n) s).active.length ≤ c := by
  intro sched
  induction sched with
  | nil => intro s h; simpa using h
  | cons i rest ih =>
    intro s h
    simpa using ih (pmapStep n s i) (pmapStep_active_le n c s i h)

/-- C2: at every point of the execution of pmap, the number of fn
invocations that have started but not yet resolved (the active lanes) is at
most min(limit, inputs.length).  Every reachable execution point is
pmapRun applied to some finite schedule of completion events. -/
theorem pmap_concurrency_bound {α : Type} (inputs : List α) (limit : Nat)
    (sched : List Nat) (h1 : 1 ≤ limit) (h2 : limit ≤ 100) :
    ((pmapRun inputs.length limit sched).active).length ≤ min limit inputs.length := by
  have hinit : (pmapInit inputs.length limit).active.length ≤ min limit inputs.length := by
    simp [pmapInit]
  exact pmapRun_aux_active_le inputs.length (min limit inputs.length) sched _ hinit

/-- Witness for the concurrency bound at concrete inputs. -/
theorem pmap_concurrency_bound_witness :
    ((pmapRun (["a", "b", "c"] : List String).length 2 [1, 0, 0]).active).length ≤
      min 2 (["a", "b", "c"] : List String).length :=
  pmap_concurrency_bound ["a", "b", "c"] 2 [1, 0, 0] (by decide) (by decide)

/-- C1 (refutation by execution): with two inputs and concurrency 1, the
single initial lane runs fn on inputs[0]; on completion the cursor moves
from 1 to 2, which is not below the input count, so no lane is ever spawned
for inputs[1].  The complete run (no lane left active) emits exactly one
result pair, not two. -/
theorem pmap_skips_an_input :
    (pmapRun 2 1 [0]).active = [] ∧
    pmapEmit ["a", "b"] (fun s => s) (pmapRun 2 1 [0]) = [("a", "a")] ∧
    (pmapEmit ["a", "b"] (fun s => s) (pmapRun 2 1 [0])).length ≠ 2 := by
  decide

/-- C3 (refutation by execution): at concurrency 1 with three inputs, the
complete run processes inputs[0] and then inputs[2], skipping inputs[1]
(after lane 0 resolves, the cursor is incremented from 1 to 2 before being
read).  The emitted sequence is therefore not the input sequence: the
second emitted result corresponds to the third input. -/
theorem pmap_limit_one_skips :
    (pmapRun 3 1 [0, 2]).active = [] ∧
    pmapEmit ["x", "y", "z"] (fun s => s) (pmapRun 3 1 [0, 2]) =
      [("x", "x"), ("z", "z")] ∧
    pmapEmit ["x", "y", "z"] (fun s => s) (pmapRun 3 1 [0, 2]) ≠
      (["x", "y", "z"] : List String).map (fun s => (s, s)) := by
  decide

theorem pmapStep_order_frozen (n : Nat) (s : PmapState) (i : Nat)
    (h : n ≤ s.cursor) :
    (pmapStep n s i).order = s.order ∧ n ≤ (pmapStep n s i).cursor := by
  unfold pmapStep
  by_cases hm : i ∈ s.active
  · have hc : ¬ s.cursor + 1 < n := by omega
    simp only [hm, if_true, hc, if_false]
    exact ⟨trivial, by omega⟩
  · simp [hm, h]

theorem pmapRun_aux_order_frozen (n : Nat) :
    ∀ (sched : List Nat) (s : PmapState), n ≤ s.cursor →
      (sched.foldl (pmapStep n) s).order = s.order ∧
      n ≤ (sched.foldl (pmapStep n) s).cursor := by
  intro sched
  induction sched with
  | nil => intro s h; exact ⟨rfl, h⟩
  | cons i rest ih =>
    intro s h
    have hstep := pmapStep_order_frozen n s i h
    have := ih (pmapStep n s i) hstep.2
    simpa [hstep.1] using this

theorem pmapEmit_range {α β : Type} (fn : α → β) :
    ∀ (l : List α),
      (List.range l.length).filterMap (fun i => (l.get? i).map (fun a => (a, fn a))) =
        l.map (fun a => (a, fn a)) := by
  intro l
  induction l with
  | nil => simp
  | cons a t ih =>
    have hr : List.range (t.length + 1) =
        0 :: (List.range t.length).map Nat.succ := List.range_succ_eq_map t.length
    simp only [List.length_cons, hr, List.filterMap_cons, List.get?, Option.map_some,
      List.filterMap_map]
    rw [show ((fun i => ((a :: t).get? i).map (fun x => (x, fn x))) ∘ Nat.succ) =
        (fun i => (t.get? i).map (fun x => (x, fn x))) from rfl]
    rw [ih]
    simp

/-- C10: when the input list is no longer than the concurrency limit, every
lane is created by the initial loop, one per input index in input order, so
fn is invoked exactly once on every input (the promises array is exactly
the index range) and, once every lane has resolved, the emitted sequence
pairs the i-th input with its output in input order. -/
theorem pmap_within_limit_in_order {α β : Type} (inputs : List α) (fn : α → β)
    (limit : Nat) (sched : List Nat)
    (h : inputs.length ≤ limit)
    (hdone : (pmapRun inputs.length limit sched).active = []) :
    (pmapRun inputs.length limit sched).order = List.range inputs.length ∧
    pmapEmit inputs fn (pmapRun inputs.length limit sched) =
      inputs.map (fun a => (a, fn a)) := by
  have hmin : min limit inputs.length = inputs.length := Nat.min_eq_right h
  have hinit : inputs.length ≤ (pmapInit inputs.length limit).cursor := by
    simp [pmapInit, hmin]
  have hfrozen := pmapRun_aux_order_frozen inputs.length sched
    (pmapInit inputs.length limit) hinit
  have horder : (pmapRun inputs.length limit sched).order = List.range inputs.length := by
    unfold pmapRun
    rw [hfrozen.1]
    simp [pmapInit, hmin]
  refine ⟨horder, ?_⟩
  unfold pmapEmit
  rw [horder]
  exact pmapEmit_range fn inputs

/-- Witness for the in-order small-input case: two inputs, limit two, lanes
completing out of order (lane 1 first) still emit in input order. -/
theorem pmap_within_limit_in_order_witness :
    (pmapRun (["a", "b"] : List String).length 2 [1, 0]).order =
      List.range (["a", "b"] : List String).length ∧
    pmapEmit ["a", "b"] (fun s => s ++ "!") (pmapRun (["a", "b"] : List String).length 2 [1, 0]) =
      (["a", "b"] : List String).map (fun a => (a, a ++ "!")) :=
  pmap_within_limit_in_order ["a", "b"] (fun s => s ++ "!") 2 [1, 0]
    (by decide) (by decide)

/-! ## Occurrence counting (count, src/index.ts lines 190-197)

count builds a JavaScript Map from items to occurrence counts.  A
JavaScript Map preserves first-insertion order of keys and updates existing
keys in place, which an association list models exactly. -/

/-- Lookup in an insertion-ordered association list (JavaScript Map.get). -/
def mapGet {α : Type} [DecidableEq α] : List (α × Nat) → α → Option Nat
  | [], _ => none
  | q :: rest, k => if q.1 = k then some q.2 else mapGet rest k

/-- Update in an insertion-ordered association list (JavaScript Map.set):
an existing key keeps its position, a new key is appended. -/
def mapSet {α : Type} [DecidableEq α] : List (α × Nat) → α → Nat → List (α × Nat)
  | [], k, v => [(k, v)]
  | q :: rest, k, v => if q.1 = k then (k, v) :: rest else q :: mapSet rest k v

/-- count from the source: fold over the items, incrementing the entry of
each item, starting from 0 for unseen items. -/
def count {α : Type} [DecidableEq α] (items : List α) : List (α × Nat) :=
  items.foldl (fun m item => mapSet m item ((mapGet m item).getD 0 + 1)) []

theorem mapGet_mapSet_self {α : Type} [DecidableEq α] (m : List (α × Nat)) (k : α) (v : Nat) :
    mapGet (mapSet m k v) k = some v := by
  induction m with
  | nil => simp [mapSet, mapGet]
  | cons q rest ih =>
    by_cases hq : q.1 = k
    · simp [mapSet, hq, mapGet]
    · simp [mapSet, hq, mapGet, ih]

theorem mapGet_mapSet_other {α : Type} [DecidableEq α] (m : List (α × Nat)) (k k' : α) (v : Nat)
    (h : k' ≠ k) : mapGet (mapSet m k v) k' = mapGet m k' := by
  have hk : ¬ (k = k') := fun hh => h hh.symm
  induction m with
  | nil => simp [mapSet, mapGet, hk]
  | cons q rest ih =>
    by_cases hq : q.1 = k
    · have hq1 : ¬ (q.1 = k') := by rw [hq]; exact hk
      simp [mapSet, hq, mapGet, hk, hq1]
    · by_cases hq' : q.1 = k'
      · simp [mapSet, hq, mapGet, hq', h]
      · simp [mapSet, hq, mapGet, hq', ih]

theorem mem_keys_mapSet {α : Type} [DecidableEq α] (m : List (α × Nat)) (k a : α) (v : Nat)
    (h : a ∈ (mapSet m k v).map Prod.fst) : a ∈ m.map Prod.fst ∨ a = k := by
  induction m with
  | nil =>
    simp [mapSet] at h
    exact Or.inr h
  | cons q rest ih =>
    by_cases hq : q.1 = k
    · simp [mapSet, hq] at h
      rcases h with h | h
      · exact Or.inr h
      · exact Or.inl (by simp [h])
    · simp [mapSet, hq] at h
      rcases h with h | h
      · exact Or.inl (by simp [h])
      · rcases ih (by simpa using h) with h' | h'
        · exact Or.inl (by simp at h' ⊢; exact Or.inr h')
        · exact Or.inr h'

theorem keys_nodup_mapSet {α : Type} [DecidableEq α] (m : List (α × Nat)) (k : α) (v : Nat)
    (h : (m.map Prod.fst).Nodup) : ((mapSet m k v).map Prod.fst).Nodup := by
  induction m with
  | nil => simp [mapSet]
  | cons q rest ih =>
    simp only [List.map_cons, List.nodup_cons] at h
    by_cases hq : q.1 = k
    · simp only [mapSet, hq, if_true, List.map_cons, List.nodup_cons]
      exact ⟨by rw [← hq]; exact h.1, h.2⟩
    · simp only [mapSet, hq, if_false, List.map_cons, List.nodup_cons]
      refine ⟨?_, ih h.2⟩
      intro hmem
      rcases mem_keys_mapSet rest k q.1 v hmem with h' | h'
      · exact h.1 h'
      · exact hq h'

theorem count_aux {α : Type} [DecidableEq α] :
    ∀ (items : List α) (m : List (α × Nat)) (pre : List α),
      (∀ k, mapGet m k = if k ∈ pre then some (pre.count k) else none) →
      (m.map Prod.fst).Nodup →
      (∀ k, mapGet (items.foldl (fun m item => mapSet m item ((mapGet m item).getD 0 + 1)) m) k =
          if k ∈ pre ++ items then some ((pre ++ items).count k) else none) ∧
      ((items.foldl (fun m item => mapSet m item ((mapGet m item).getD 0 + 1)) m).map
          Prod.fst).Nodup := by
  intro items
  induction items with
  | nil =>
    intro m pre hinv hnodup
    constructor
    · intro k; simpa using hinv k
    · simpa using hnodup
  | cons a rest ih =>
    intro m pre hinv hnodup
    have hinv' : ∀ k, mapGet (mapSet m a ((mapGet m a).getD 0 + 1)) k =
        if k ∈ pre ++ [a] then some ((pre ++ [a]).count k) else none := by
      intro k
      by_cases hk : k = a
      · subst hk
        rw [mapGet_mapSet_self]
        have hget := hinv k
        by_cases hmem : k ∈ pre
        · simp only [hmem, if_true] at hget
          simp [hget, hmem, List.count_append]
        · simp only [hmem, if_false] at hget
          have hzero : pre.count k = 0 := List.count_eq_zero.mpr hmem
          simp [hget, hmem, List.count_append, hzero]
      · rw [mapGet_mapSet_other m a k _ hk]
        have hget := hinv k
        have hca : List.count k [a] = 0 := by
          simp [List.count_singleton, hk]
        by_cases hmem : k ∈ pre
        · simp [hmem, hk, List.count_append, hca] at hget ⊢
          exact hget
        · simp [hmem, hk] at hget ⊢
          exact hget
    have hnodup' := keys_nodup_mapSet m a ((mapGet m a).getD 0 + 1) hnodup
    have hres := ih (mapSet m a ((mapGet m a).getD 0 + 1)) (pre ++ [a]) hinv' hnodup'
    constructor
    · intro k
      have := hres.1 k
      simpa [List.append_assoc] using this
    · exact hres.2

/-- C9: count is a pure deterministic function whose result, read back with
the JavaScript Map lookup, maps exactly the distinct members of the input
to their occurrence counts (absent keys look up to none, so the keys are
exactly the distinct items, and the keys are duplicate-free), and on the
concrete example from the specification it yields two for "#a" and one for
"#b". -/
theorem count_occurrences {α : Type} [DecidableEq α] (items : List α) (k : α) :
    (mapGet (count items) k = if k ∈ items then some (items.count k) else none) ∧
    ((count items).map Prod.fst).Nodup ∧
    count ["#a", "#a", "#b"] = [("#a", 2), ("#b", 1)] := by
  have h := count_aux items [] []
    (by intro k; simp [mapGet]) (by simp)
  refine ⟨?_, ?_, by decide⟩
  · have := h.1 k
    simpa [count] using this
  · simpa [count] using h.2

/-! ## Configuration (src/index.ts lines 3-35)

Options mirrors the Options interface; PartialOptions mirrors
Partial<Options> and mergeOptions the spread of caller options over the
defaults object.  Navigation options (timeout, waitUntil) are carried for
fidelity but no claim depends on them. -/

structure Options where
  samePage : Bool
  sameSite : Bool
  offSite : Bool
  fragments : Bool
  cacheEnabled : Bool
  concurrency : Nat
  badContent : Option String
  timeout : Nat
  waitUntil : String
deriving Repr, DecidableEq

structure PartialOptions where
  samePage : Option Bool := none
  sameSite : Option Bool := none
  offSite : Option Bool := none
  fragments : Option Bool := none
  cacheEnabled : Option Bool := none
  concurrency : Option Nat := none
  badContent : Option String := none
  timeout : Option Nat := none
  waitUntil : Option String := none
deriving Repr, DecidableEq

/-- The defaults object merged under the caller options. -/
def mergeOptions (p : PartialOptions) : Options :=
  { samePage := p.samePage.getD true
    sameSite := p.sameSite.getD true
    offSite := p.offSite.getD true
    fragments := p.fragments.getD true
    cacheEnabled := p.cacheEnabled.getD false
    concurrency := p.concurrency.getD 5
    badContent := p.badContent
    timeout := p.timeout.getD 20000
    waitUntil := p.waitUntil.getD "load" }

/-! ## Rendering engine boundary

Modelled from the spec: the external navigation engine (puppeteer) is not
part of src/.  Per the collaborator boundary in the spec, a navigation
either raises, returns no response metadata, or returns a response with a
status code, whose ok test is membership of the status in the HTTP success
range 200-299. -/

structure NavResponse where
  status : Nat
deriving Repr, DecidableEq

/-- Modelled from the spec: response.ok() of the rendering engine is true
exactly when the status is in the success range. -/
def NavResponse.ok (r : NavResponse) : Bool :=
  decide (200 ≤ r.status ∧ r.status ≤ 299)

/-- pageExists from the source: `!response || response.ok()`. -/
def respOk : Option NavResponse → Bool
  | none => true
  | some r => r.ok

/-- Environment one isLinkValid call observes through its fresh page
context: the stringification of the parsed URL, its hash component (empty
when the link has no fragment), the navigation result, the answers of the
fragment existence query, and the result of reading the body markup. -/
structure LinkEnv where
  urlString : String
  hash : String
  nav : Except String (Option NavResponse)
  found : String → Bool
  body : Except String String

/-- The hash with a single leading '#' removed (hash.replace(/^#/, "")). -/
def stripHash (hash : String) : String :=
  if hash.startsWith "#" then hash.drop 1 else hash

/-- isFragmentValid (src/index.ts lines 145-153): strip the leading '#' and
query for an element whose id or name attribute equals the identifier; the
catch handler turns both an absent element and a failing query into false,
which the boundary function found answers. -/
def isFragmentValid (hash : String) (found : String → Bool) : Bool :=
  found (stripHash hash)

/-- The duck-typed result shape of isLinkValid: either {error} or
{pageExists, fragExists?, status?}. -/
inductive ValidationOutcome where
  | failure (error : String)
  | observation (pageExists : Bool) (fragExists : Option Bool) (status : Option Nat)
deriving Repr, DecidableEq

/-- The fragExists assignment of isLinkValid: checked only when fragments
are enabled, the page exists, and the parsed hash is a nonempty string of
length above one. -/
def fragCheck (opts : Options) (env : LinkEnv) (pageExists : Bool) : Option Bool :=
  if opts.fragments && pageExists && (env.hash != "") && decide (1 < env.hash.length) then
    some (isFragmentValid env.hash env.found)
  else none

/-- Whether the first list starts the second. -/
def isPrefixB {α : Type} [DecidableEq α] : List α → List α → Bool
  | [], _ => true
  | _ :: _, [] => false
  | a :: as, b :: bs => if a = b then isPrefixB as bs else false

/-- Whether the first list occurs contiguously inside the second. -/
def isInfixB {α : Type} [DecidableEq α] (pat : List α) : List α → Bool
  | [] => isPrefixB pat []
  | b :: rest => isPrefixB pat (b :: rest) || isInfixB pat rest

/-- The body scan html.search(badContent) !== -1, with the JavaScript
string-to-regex coercion restricted to literal patterns: occurrence as a
substring. -/
def strSearchFound (html pat : String) : Bool :=
  isInfixB pat.data html.data

/-- isLinkValid (src/index.ts lines 155-188): classify the navigation
result, optionally check the fragment, record the status, and, when a
nonempty badContent is configured (the JavaScript truthiness test skips
the empty string), read the body and turn a hit into a thrown error that
the catch converts into a failure value.  A navigation or body-read error
is likewise caught and returned as a failure. -/
def isLinkValid (link : String) (opts : Options) (env : LinkEnv) : ValidationOutcome :=
  match env.nav with
  | Except.error e => ValidationOutcome.failure e
  | Except.ok resp =>
    match opts.badContent with
    | none =>
      ValidationOutcome.observation (respOk resp) (fragCheck opts env (respOk resp))
        (resp.map NavResponse.status)
    | some bad =>
      if bad = "" then
        ValidationOutcome.observation (respOk resp) (fragCheck opts env (respOk resp))
          (resp.map NavResponse.status)
      else
        match env.body with
        | Except.error e => ValidationOutcome.failure e
        | Except.ok html =>
          if strSearchFound html bad then
            ValidationOutcome.failure
              ("Bad content found at " ++ env.urlString ++ ": " ++ bad)
          else
            ValidationOutcome.observation (respOk resp) (fragCheck opts env (respOk resp))
              (resp.map NavResponse.status)

/-- C5: with a nonempty badContent configured, a navigation that returns
(with any response, in particular a success status while a fragment was
checked) still produces the failure value carrying the bad-content message
whenever the pattern occurs in the body markup, and never an observation,
so the Entry for the link carries an error. -/
theorem badContent_overrides (link : String) (opts : Options) (env : LinkEnv)
    (bad html : String) (resp : Option NavResponse)
    (hbc : opts.badContent = some bad) (hne : bad ≠ "")
    (hurl : env.urlString = link)
    (hnav : env.nav = Except.ok resp)
    (hbody : env.body = Except.ok html)
    (hfound : strSearchFound html bad = true) :
    isLinkValid link opts env =
      ValidationOutcome.failure ("Bad content found at " ++ link ++ ": " ++ bad) ∧
    ∀ pe fe st, isLinkValid link opts env ≠ ValidationOutcome.observation pe fe st := by
  have heq : isLinkValid link opts env =
      ValidationOutcome.failure ("Bad content found at " ++ link ++ ": " ++ bad) := by
    unfold isLinkValid
    rw [hnav, hbc, hbody, hurl]
    simp [hne, hfound]
  exact ⟨heq, by intro pe fe st hobs; rw [heq] at hobs; exact ValidationOutcome.noConfusion hobs⟩

/-- Witness for the bad-content override: HTTP 200, fragments enabled and
the fragment found, yet the Entry output is the failure message. -/
theorem badContent_overrides_witness :
    isLinkValid "https://x.test/p#sec"
      { samePage := true, sameSite := true, offSite := true, fragments := true
        cacheEnabled := false, concurrency := 5, badContent := some "Error 500"
        timeout := 20000, waitUntil := "load" }
      { urlString := "https://x.test/p#sec", hash := "#sec"
        nav := Except.ok (some { status := 200 })
        found := fun _ => true
        body := Except.ok "<body>Error 500</body>" } =
    ValidationOutcome.failure ("Bad content found at " ++ "https://x.test/p#sec" ++ ": " ++ "Error 500") :=
  (badContent_overrides "https://x.test/p#sec" _ _ "Error 500" "<body>Error 500</body>"
    (some { status := 200 }) rfl (by decide) rfl rfl rfl (by decide)).1

/-- C6: when the navigation does not raise and no bad-content scan is
configured, isLinkValid returns an observation whose pageExists is true
exactly when there is no response metadata or the status is in the success
range, and whose status field is the status of the response when one
exists and none otherwise. -/
theorem pageExists_classification (link : String) (opts : Options) (env : LinkEnv)
    (resp : Option NavResponse)
    (hnav : env.nav = Except.ok resp) (hbc : opts.badContent = none) :
    isLinkValid link opts env =
      ValidationOutcome.observation (respOk resp) (fragCheck opts env (respOk resp))
        (resp.map NavResponse.status) ∧
    (respOk resp = true ↔ resp = none ∨ ∃ r, resp = some r ∧ 200 ≤ r.status ∧ r.status ≤ 299) := by
  constructor
  · unfold isLinkValid
    rw [hnav, hbc]
  · cases resp with
    | none => simp [respOk]
    | some r =>
      simp [respOk, NavResponse.ok]

/-- Witness for the classification: an off-site link answered with HTTP
404 yields pageExists false and statusCode 404 (no fragment requested). -/
theorem pageExists_classification_witness :
    isLinkValid "https://other.example/p"
      { samePage := true, sameSite := true, offSite := true, fragments := true
        cacheEnabled := false, concurrency := 5, badContent := none
        timeout := 20000, waitUntil := "load" }
      { urlString := "https://other.example/p", hash := ""
        nav := Except.ok (some { status := 404 })
        found := fun _ => false
        body := Except.ok "" } =
    ValidationOutcome.observation false none (some 404) := by
  have h := (pageExists_classification "https://other.example/p"
    { samePage := true, sameSite := true, offSite := true, fragments := true
      cacheEnabled := false, concurrency := 5, badContent := none
      timeout := 20000, waitUntil := "load" }
    { urlString := "https://other.example/p", hash := ""
      nav := Except.ok (some { status := 404 })
      found := fun _ => false
      body := Except.ok "" }
    (some { status := 404 }) rfl rfl).1
  rw [h]
  decide

/-! ## Same-page links (checkSamePageLinks, src/index.ts lines 120-126) -/

/-- The {input, output} record yielded for one link before the orchestrator
tags it with its category. -/
structure PreEntry where
  link : String
  count : Nat
  output : ValidationOutcome
deriving Repr, DecidableEq

/-- checkSamePageLinks: walk the occurrence map in insertion order, skip
links of length at most one, and yield pageExists true together with the
fragment existence on the already loaded main page. -/
def checkSamePageLinks (links : List (String × Nat)) (page : String → Bool) : List PreEntry :=
  match links with
  | [] => []
  | (link, cnt) :: rest =>
    if link.length ≤ 1 then checkSamePageLinks rest page
    else
      { link := link, count := cnt
        output := ValidationOutcome.observation true (some (isFragmentValid link page)) none } ::
        checkSamePageLinks rest page

theorem mem_mapSet {α : Type} [DecidableEq α] :
    ∀ (m : List (α × Nat)) (k : α) (v : Nat) (q : α × Nat),
      q ∈ mapSet m k v → q ∈ m ∨ q.1 = k := by
  intro m k v
  induction m with
  | nil =>
    intro q hq
    simp [mapSet] at hq
    exact Or.inr (by rw [hq])
  | cons p rest ih =>
    intro q hq
    by_cases hp : p.1 = k
    · simp [mapSet, hp] at hq
      rcases hq with hq | hq
      · exact Or.inr (by rw [hq])
      · exact Or.inl (by simp [hq])
    · simp [mapSet, hp] at hq
      rcases hq with hq | hq
      · exact Or.inl (by simp [hq])
      · rcases ih q hq with h | h
        · exact Or.inl (by simp [h])
        · exact Or.inr h

theorem count_keys_aux {α : Type} [DecidableEq α] :
    ∀ (items : List α) (m : List (α × Nat)) (univ : List α),
      (∀ q ∈ m, q.1 ∈ univ) → (∀ a ∈ items, a ∈ univ) →
      ∀ q ∈ items.foldl (fun m item => mapSet m item ((mapGet m item).getD 0 + 1)) m,
        q.1 ∈ univ := by
  intro items
  induction items with
  | nil => intro m univ hm _ q hq; exact hm q hq
  | cons a rest ih =>
    intro m univ hm hall q hq
    refine ih (mapSet m a ((mapGet m a).getD 0 + 1)) univ ?_
      (fun b hb => hall b (by simp [hb])) q (by simpa using hq)
    intro p hp
    rcases mem_mapSet m a ((mapGet m a).getD 0 + 1) p hp with h | h
    · exact hm p h
    · rw [h]; exact hall a (by simp)

/-- Every key of the occurrence map is one of the counted items. -/
theorem count_keys_mem {α : Type} [DecidableEq α] (items : List α) :
    ∀ q ∈ count items, q.1 ∈ items := by
  intro q hq
  exact count_keys_aux items [] items (by simp) (fun a ha => ha) q hq

theorem checkSamePageLinks_eq_filter (links : List (String × Nat)) (page : String → Bool) :
    checkSamePageLinks links page =
      (links.filter (fun q => 1 < q.1.length)).map
        (fun q => { link := q.1, count := q.2
                    output := ValidationOutcome.observation true
                      (some (page (stripHash q.1))) none }) := by
  induction links with
  | nil => rfl
  | cons q rest ih =>
    obtain ⟨l, c⟩ := q
    by_cases hlen : l.length ≤ 1
    · have hnot : ¬ (1 < l.length) := by omega
      simp [checkSamePageLinks, hlen, List.filter_cons, hnot, ih]
    · have hlt : 1 < l.length := by omega
      simp [checkSamePageLinks, hlen, List.filter_cons, hlt, ih, isFragmentValid]

theorem checkSamePageLinks_nil_of_short (page : String → Bool) :
    ∀ (m : List (String × Nat)), (∀ q ∈ m, q.1.length ≤ 1) →
      checkSamePageLinks m page = [] := by
  intro m
  induction m with
  | nil => intro _; rfl
  | cons p rest ih =>
    intro h
    obtain ⟨l, c⟩ := p
    have hp : l.length ≤ 1 := h (l, c) (by simp)
    simp [checkSamePageLinks, hp, ih (fun q hq => h q (by simp [hq]))]

/-- C7: the samePage phase emits exactly one entry per occurrence-map key
of length above one, in order, with pageExists true and fragExists the
answer of the id-or-name existence query for the stripped fragment on the
main page; keys of length at most one (the bare hash) are never validated
or emitted, so an occurrence map built from a page containing only bare
hash anchors yields no entries. -/
theorem samePage_fragment_entries (links : List (String × Nat)) (page : String → Bool)
    (raw : List String) (hraw : ∀ s ∈ raw, s = "#") :
    checkSamePageLinks links page =
      (links.filter (fun q => 1 < q.1.length)).map
        (fun q => { link := q.1, count := q.2
                    output := ValidationOutcome.observation true
                      (some (page (stripHash q.1))) none }) ∧
    checkSamePageLinks (count raw) page = [] := by
  refine ⟨checkSamePageLinks_eq_filter links page, ?_⟩
  apply checkSamePageLinks_nil_of_short
  intro q hq
  have hinraw : q.1 ∈ raw := count_keys_mem raw q hq
  rw [hraw q.1 hinraw]
  decide

/-- Witness for the samePage phase: one long and one bare fragment in the
map, and a raw list of bare hashes. -/
theorem samePage_fragment_entries_witness :
    checkSamePageLinks [("#sec", 2), ("#", 3)] (fun s => s == "sec") =
      ([("#sec", 2), ("#", 3)].filter (fun q => 1 < q.1.length)).map
        (fun q => { link := q.1, count := q.2
                    output := ValidationOutcome.observation true
                      (some ((fun s => s == "sec") (stripHash q.1))) none }) ∧
    checkSamePageLinks (count ["#", "#"]) (fun s => s == "sec") = [] :=
  samePage_fragment_entries [("#sec", 2), ("#", 3)] (fun s => s == "sec")
    ["#", "#"] (by decide)

/-! ## Orchestrator (checkLinks, src/index.ts lines 48-88)

checkLinks is an async generator.  We model one run as the sequence of
resource events it performs: launching the browser session, the top-level
navigation, yielding an entry, closing the session (the finally block),
and re-raising a caught fatal error after the finally block has run.
Early termination by the consumer is the generator return that a for-await
break performs: the generator body resumes at its suspended yield, unwinds
through the finally block (closing the session), and raises nothing.  A
consumer that silently drops the generator without returning it never
resumes the body at all, so no exit path is taken and the trace model does
not apply (the known leak the specification notes elsewhere). -/

inductive Event where
  | launch
  | navigate
  | yieldE
  | close
  | raise (msg : String)
deriving Repr, DecidableEq

/-- Per-run environment: result of the top-level navigation, the raw link
lists the DOM extraction returns for each category, the fragment query
oracle of the main page, the per-link validation environments, and the
completion schedules of the two scheduled phases. -/
structure RunEnv where
  gotoResult : Except String (Option NavResponse)
  rawSamePage : List String
  rawSameSite : List String
  rawOffSite : List String
  mainPage : String → Bool
  linkEnv : String → LinkEnv
  schedSameSite : List Nat
  schedOffSite : List Nat

/-- The configuration error thrown before the browser is launched. -/
def configErrorMsg (c : Nat) : String :=
  "options.concurrency must be between 1-100, got " ++ toString c ++ "."

/-- The fatal error thrown when the top-level page returns no response or
a non-ok status. -/
def navFailMsg (url : String) (resp : Option NavResponse) : String :=
  "Failed to navigate to " ++ url ++
    (match resp with
     | some r => ". HTTP " ++ toString r.status
     | none => "")

/-- checkOffPageLinks (src/index.ts lines 128-143): run the distinct keys
of the occurrence map through pmap with the link validator, then re-attach
the occurrence count of each emitted link. -/
def checkOffPageLinks (links : List (String × Nat)) (opts : Options)
    (linkEnv : String → LinkEnv) (sched : List Nat) : List PreEntry :=
  (pmapEmit (links.map Prod.fst) (fun l => isLinkValid l opts (linkEnv l))
      (pmapRun (links.map Prod.fst).length opts.concurrency sched)).map
    (fun q => { link := q.1, count := (mapGet links q.1).getD 0, output := q.2 })

inductive Category where
  | samePage
  | sameSite
  | offSite
deriving Repr, DecidableEq

structure Entry where
  pre : PreEntry
  type : Category
deriving Repr, DecidableEq

/-- The full entry sequence of a completed run: samePage entries first,
then the two scheduled categories, each category counted only when enabled
(a disabled category contributes an empty raw list, hence no entries). -/
def runEntries (p : PartialOptions) (env : RunEnv) : List Entry :=
  (checkSamePageLinks (count (if (mergeOptions p).samePage then env.rawSamePage else []))
      env.mainPage).map (fun e => { pre := e, type := Category.samePage }) ++
  (checkOffPageLinks (count (if (mergeOptions p).sameSite then env.rawSameSite else []))
      (mergeOptions p) env.linkEnv env.schedSameSite).map
    (fun e => { pre := e, type := Category.sameSite }) ++
  (checkOffPageLinks (count (if (mergeOptions p).offSite then env.rawOffSite else []))
      (mergeOptions p) env.linkEnv env.schedOffSite).map
    (fun e => { pre := e, type := Category.offSite })

/-- The event trace of a run that the consumer drains to the end: the
concurrency guard throws before the launch; a failed or non-ok top-level
navigation is caught, the finally closes the session, and the error is
re-raised after it; otherwise every entry is yielded and the finally
closes the session. -/
def fullTrace (url : String) (p : PartialOptions) (env : RunEnv) : List Event :=
  if (mergeOptions p).concurrency < 1 ∨ 100 < (mergeOptions p).concurrency then
    [Event.raise (configErrorMsg (mergeOptions p).concurrency)]
  else
    match env.gotoResult with
    | Except.error e => [Event.launch, Event.navigate, Event.close, Event.raise e]
    | Except.ok none =>
      [Event.launch, Event.navigate, Event.close, Event.raise (navFailMsg url none)]
    | Except.ok (some r) =>
      if r.ok then
        Event.launch :: Event.navigate ::
          ((runEntries p env).map (fun _ => Event.yieldE) ++ [Event.close])
      else
        [Event.launch, Event.navigate, Event.close, Event.raise (navFailMsg url (some r))]

/-- Truncation of a trace by a consumer that stops after its k-th pulled
entry: the generator is suspended at that yield, so the return unwinds the
finally block, which closes the session; everything the body would have
done afterwards, including a later re-raise, never happens. -/
def truncAux : Nat → List Event → List Event
  | _, [] => []
  | k, Event.yieldE :: rest =>
    if k ≤ 1 then [Event.yieldE, Event.close]
    else Event.yieldE :: truncAux (k - 1) rest
  | k, Event.launch :: rest => Event.launch :: truncAux k rest
  | k, Event.navigate :: rest => Event.navigate :: truncAux k rest
  | k, Event.close :: rest => Event.close :: truncAux k rest
  | k, Event.raise s :: rest => Event.raise s :: truncAux k rest

/-- Trace of a run as observed for a given consumer behaviour: none means
the consumer drains the generator, some k that it returns the generator
after the k-th pulled entry (after zero pulls the body never starts and
nothing at all happens). -/
def checkLinksTrace (url : String) (p : PartialOptions) (env : RunEnv)
    (mode : Option Nat) : List Event :=
  match mode with
  | none => fullTrace url p env
  | some 0 => []
  | some (k + 1) => truncAux (k + 1) (fullTrace url p env)

/-- Whether the top-level navigation fails: it raises, returns no
response, or returns a non-ok status. -/
def topNavFails (env : RunEnv) : Bool :=
  match env.gotoResult with
  | Except.error _ => true
  | Except.ok none => true
  | Except.ok (some r) => !r.ok

/-- Every fn invocation the two scheduled phases start eventually
resolves: their schedules drive the scheduler to an empty active set. -/
def TerminatingEnv (p : PartialOptions) (env : RunEnv) : Prop :=
  (pmapRun ((count (if (mergeOptions p).sameSite then env.rawSameSite else [])).map
      Prod.fst).length (mergeOptions p).concurrency env.schedSameSite).active = [] ∧
  (pmapRun ((count (if (mergeOptions p).offSite then env.rawOffSite else [])).map
      Prod.fst).length (mergeOptions p).concurrency env.schedOffSite).active = []

/-- Number of occurrences of an event in a trace. -/
def countEvent (a : Event) : List Event → Nat
  | [] => 0
  | e :: rest => (if e = a then 1 else 0) + countEvent a rest

/-- True when no raise occurs before the first close of the trace. -/
def closedBeforeRaise : List Event → Bool
  | [] => true
  | Event.close :: _ => true
  | Event.raise _ :: _ => false
  | Event.launch :: rest => closedBeforeRaise rest
  | Event.navigate :: rest => closedBeforeRaise rest
  | Event.yieldE :: rest => closedBeforeRaise rest

theorem countEvent_append (a : Event) (l1 l2 : List Event) :
    countEvent a (l1 ++ l2) = countEvent a l1 + countEvent a l2 := by
  induction l1 with
  | nil => simp [countEvent]
  | cons e rest ih => simp [countEvent, ih, Nat.add_assoc]

theorem countEvent_yields (a : Event) (ha : a ≠ Event.yieldE) :
    ∀ (ys : List Event), (∀ e ∈ ys, e = Event.yieldE) → countEvent a ys = 0 := by
  intro ys
  induction ys with
  | nil => intro _; rfl
  | cons e rest ih =>
    intro h
    have he := h e (by simp)
    subst he
    have hne : ¬ (Event.yieldE = a) := fun hh => ha hh.symm
    simp [countEvent, hne, ih (fun e he => h e (by simp [he]))]

theorem closedBeforeRaise_take :
    ∀ (tr : List Event), closedBeforeRaise tr = true →
      ∀ (n : Nat) (m : String), Event.raise m ∈ tr.take n → Event.close ∈ tr.take n := by
  intro tr
  induction tr with
  | nil => intro _ n m hm; simp at hm
  | cons e rest ih =>
    intro h n m hm
    cases n with
    | zero => simp at hm
    | succ n =>
      simp only [List.take_succ_cons, List.mem_cons] at hm ⊢
      cases e with
      | close => exact Or.inl rfl
      | raise s => simp [closedBeforeRaise] at h
      | launch =>
        rcases hm with hm | hm
        · exact absurd hm (by simp)
        · exact Or.inr (ih (by simpa [closedBeforeRaise] using h) n m hm)
      | navigate =>
        rcases hm with hm | hm
        · exact absurd hm (by simp)
        · exact Or.inr (ih (by simpa [closedBeforeRaise] using h) n m hm)
      | yieldE =>
        rcases hm with hm | hm
        · exact absurd hm (by simp)
        · exact Or.inr (ih (by simpa [closedBeforeRaise] using h) n m hm)

theorem closedBeforeRaise_yields (ys : List Event) (h : ∀ e ∈ ys, e = Event.yieldE) :
    closedBeforeRaise (ys ++ [Event.close]) = true := by
  induction ys with
  | nil => rfl
  | cons e rest ih =>
    have he : e = Event.yieldE := h e (by simp)
    subst he
    simpa [closedBeforeRaise] using ih (fun e he => h e (by simp [he]))

theorem truncAux_yields :
    ∀ (ys : List Event) (k : Nat), (∀ e ∈ ys, e = Event.yieldE) →
      ∃ ys1, (∀ e ∈ ys1, e = Event.yieldE) ∧
        truncAux k (ys ++ [Event.close]) = ys1 ++ [Event.close] := by
  intro ys
  induction ys with
  | nil =>
    intro k _
    exact ⟨[], by simp, by simp [truncAux]⟩
  | cons e rest ih =>
    intro k h
    have he : e = Event.yieldE := h e (by simp)
    subst he
    by_cases hk : k ≤ 1
    · refine ⟨[Event.yieldE], by simp, ?_⟩
      simp [truncAux, hk]
    · obtain ⟨ys1, h1, h2⟩ := ih (k - 1) (fun e he => h e (by simp [he]))
      refine ⟨Event.yieldE :: ys1, ?_, ?_⟩
      · intro e he
        rcases List.mem_cons.mp he with he | he
        · exact he
        · exact h1 e he
      · simp [truncAux, hk, h2]

/-- The teardown and rethrow properties of one trace. -/
def GoodTrace (tr : List Event) : Prop :=
  countEvent Event.launch tr ≤ 1 ∧
  countEvent Event.close tr = countEvent Event.launch tr ∧
  (Event.launch ∈ tr → closedBeforeRaise tr = true)

theorem goodTrace_nil : GoodTrace [] :=
  ⟨by simp [countEvent], rfl, by intro h; simp at h⟩

theorem goodTrace_raiseOnly (s : String) : GoodTrace [Event.raise s] := by
  refine ⟨by simp [countEvent], by simp [countEvent], ?_⟩
  intro h
  simp at h

theorem goodTrace_navFail (s : String) :
    GoodTrace [Event.launch, Event.navigate, Event.close, Event.raise s] := by
  refine ⟨?_, ?_, fun _ => rfl⟩ <;> simp [countEvent]

theorem goodTrace_success (ys : List Event) (h : ∀ e ∈ ys, e = Event.yieldE) :
    GoodTrace (Event.launch :: Event.navigate :: (ys ++ [Event.close])) := by
  have hl := countEvent_yields Event.launch (by simp) ys h
  have hc := countEvent_yields Event.close (by simp) ys h
  refine ⟨?_, ?_, fun _ => ?_⟩
  · simp [countEvent, countEvent_append, hl]
  · simp [countEvent, countEvent_append, hl, hc]
  · show closedBeforeRaise (Event.launch :: Event.navigate :: (ys ++ [Event.close])) = true
    simp only [closedBeforeRaise]
    exact closedBeforeRaise_yields ys h

theorem fullTrace_shape (url : String) (p : PartialOptions) (env : RunEnv) :
    (∃ s, fullTrace url p env = [Event.raise s]) ∨
    (topNavFails env = true ∧
      ∃ s, fullTrace url p env = [Event.launch, Event.navigate, Event.close, Event.raise s]) ∨
    (topNavFails env = false ∧
      ∃ ys, (∀ e ∈ ys, e = Event.yieldE) ∧
        fullTrace url p env = Event.launch :: Event.navigate :: (ys ++ [Event.close])) := by
  unfold fullTrace
  by_cases hcfg : (mergeOptions p).concurrency < 1 ∨ 100 < (mergeOptions p).concurrency
  · rw [if_pos hcfg]
    exact Or.inl ⟨_, rfl⟩
  · rw [if_neg hcfg]
    cases henv : env.gotoResult with
    | error e =>
      exact Or.inr (Or.inl ⟨by simp [topNavFails, henv], e, rfl⟩)
    | ok resp =>
      cases resp with
      | none =>
        exact Or.inr (Or.inl ⟨by simp [topNavFails, henv], navFailMsg url none, rfl⟩)
      | some r =>
        cases hok : r.ok with
        | true =>
          refine Or.inr (Or.inr ⟨by simp [topNavFails, henv, hok], ?_⟩)
          refine ⟨(runEntries p env).map (fun _ => Event.yieldE), ?_, ?_⟩
          · intro e he
            rcases List.mem_map.mp he with ⟨x, _, hx⟩
            exact hx.symm
          · simp [hok]
        | false =>
          refine Or.inr (Or.inl ⟨by simp [topNavFails, henv, hok], navFailMsg url (some r), ?_⟩)
          simp [hok]

theorem checkLinksTrace_shape (url : String) (p : PartialOptions) (env : RunEnv)
    (mode : Option Nat) :
    checkLinksTrace url p env mode = [] ∨
    (∃ s, checkLinksTrace url p env mode = [Event.raise s]) ∨
    (topNavFails env = true ∧ ∃ s, checkLinksTrace url p env mode =
      [Event.launch, Event.navigate, Event.close, Event.raise s]) ∨
    (topNavFails env = false ∧ ∃ ys, (∀ e ∈ ys, e = Event.yieldE) ∧
      checkLinksTrace url p env mode =
        Event.launch :: Event.navigate :: (ys ++ [Event.close])) := by
  match mode with
  | none =>
    rcases fullTrace_shape url p env with ⟨s, h⟩ | ⟨ht, s, h⟩ | ⟨ht, ys, hy, h⟩
    · exact Or.inr (Or.inl ⟨s, h⟩)
    · exact Or.inr (Or.inr (Or.inl ⟨ht, s, h⟩))
    · exact Or.inr (Or.inr (Or.inr ⟨ht, ys, hy, h⟩))
  | some 0 => exact Or.inl rfl
  | some (k + 1) =>
    have heq : checkLinksTrace url p env (some (k + 1)) =
        truncAux (k + 1) (fullTrace url p env) := rfl
    rcases fullTrace_shape url p env with ⟨s, h⟩ | ⟨ht, s, h⟩ | ⟨ht, ys, hy, h⟩
    · refine Or.inr (Or.inl ⟨s, ?_⟩)
      rw [heq, h]
      simp [truncAux]
    · refine Or.inr (Or.inr (Or.inl ⟨ht, s, ?_⟩))
      rw [heq, h]
      simp [truncAux]
    · obtain ⟨ys1, hy1, h1⟩ := truncAux_yields ys (k + 1) hy
      refine Or.inr (Or.inr (Or.inr ⟨ht, ys1, hy1, ?_⟩))
      rw [heq, h]
      simp [truncAux, h1]

/-- C4: in every run whose scheduled validations all terminate, and for
every consumer behaviour (draining the stream, or breaking after the k-th
entry, which returns the generator and unwinds its finally block), the
trace launches the session at most once and closes it exactly as many
times as it was launched (so exactly once on every exit path of a launched
run); whenever the session was launched, any prefix of the trace that
contains a re-raised fatal error already contains the close, so the error
reaches the caller only after teardown; and when the top-level navigation
fails or returns a non-success status, no entry is ever yielded. -/
theorem checkLinks_teardown (url : String) (p : PartialOptions) (env : RunEnv)
    (mode : Option Nat) (hterm : TerminatingEnv p env) :
    countEvent Event.launch (checkLinksTrace url p env mode) ≤ 1 ∧
    countEvent Event.close (checkLinksTrace url p env mode) =
      countEvent Event.launch (checkLinksTrace url p env mode) ∧
    (Event.launch ∈ checkLinksTrace url p env mode →
      ∀ (n : Nat) (m : String),
        Event.raise m ∈ (checkLinksTrace url p env mode).take n →
        Event.close ∈ (checkLinksTrace url p env mode).take n) ∧
    (topNavFails env = true → Event.yieldE ∉ checkLinksTrace url p env mode) := by
  have hmain : GoodTrace (checkLinksTrace url p env mode) ∧
      (topNavFails env = true → Event.yieldE ∉ checkLinksTrace url p env mode) := by
    rcases checkLinksTrace_shape url p env mode with h | ⟨s, h⟩ | ⟨ht, s, h⟩ | ⟨ht, ys, hy, h⟩
    · rw [h]
      exact ⟨goodTrace_nil, fun _ => by simp⟩
    · rw [h]
      exact ⟨goodTrace_raiseOnly s, fun _ => by simp⟩
    · rw [h]
      exact ⟨goodTrace_navFail s, fun _ => by simp⟩
    · rw [h]
      refine ⟨goodTrace_success ys hy, fun hfail => ?_⟩
      rw [ht] at hfail
      exact absurd hfail (by simp)
  obtain ⟨⟨h1, h2, h3⟩, h4⟩ := hmain
  exact ⟨h1, h2, fun hl n m hm =>
    closedBeforeRaise_take (checkLinksTrace url p env mode) (h3 hl) n m hm, h4⟩

/-- A trivial per-link environment for witnesses. -/
def trivialLinkEnv : LinkEnv :=
  { urlString := "", hash := "", nav := Except.ok none
    found := fun _ => false, body := Except.ok "" }

/-- A concrete run environment for witnesses: the top-level navigation
answers HTTP 200 and the page contains no links. -/
def witnessEnv : RunEnv :=
  { gotoResult := Except.ok (some { status := 200 })
    rawSamePage := [], rawSameSite := [], rawOffSite := []
    mainPage := fun _ => false
    linkEnv := fun _ => trivialLinkEnv
    schedSameSite := [], schedOffSite := [] }

/-- Witness for the teardown property: the drained default-option run on
the witness environment closes the session as often as it launches it. -/
theorem checkLinks_teardown_witness :
    countEvent Event.close (checkLinksTrace "https://x.test/" {} witnessEnv none) =
      countEvent Event.launch (checkLinksTrace "https://x.test/" {} witnessEnv none) :=
  (checkLinks_teardown "https://x.test/" {} witnessEnv none (by constructor <;> decide)).2.1

/-- C8: whenever the merged configuration has a concurrency outside 1-100,
the run consists of the single configuration-error raise: the session is
never launched, no navigation happens, and no entry is yielded. -/
theorem concurrency_validation (url : String) (p : PartialOptions) (env : RunEnv)
    (h : (mergeOptions p).concurrency < 1 ∨ 100 < (mergeOptions p).concurrency) :
    checkLinksTrace url p env none =
      [Event.raise (configErrorMsg (mergeOptions p).concurrency)] ∧
    Event.launch ∉ checkLinksTrace url p env none ∧
    Event.navigate ∉ checkLinksTrace url p env none ∧
    Event.yieldE ∉ checkLinksTrace url p env none := by
  have heq : checkLinksTrace url p env none =
      [Event.raise (configErrorMsg (mergeOptions p).concurrency)] := by
    show fullTrace url p env = _
    unfold fullTrace
    rw [if_pos h]
  refine ⟨heq, ?_, ?_, ?_⟩ <;> rw [heq] <;> simp

/-- Witness for the configuration guard at concurrency zero. -/
theorem concurrency_validation_witness :
    checkLinksTrace "https://x.test/" { concurrency := some 0 } witnessEnv none =
      [Event.raise (configErrorMsg (mergeOptions { concurrency := some 0 }).concurrency)] :=
  (concurrency_validation "https://x.test/" { concurrency := some 0 } witnessEnv
    (Or.inl (by decide))).1

end HrefChecker
